import Mathlib

/-!
Verification of the tracecat integration registry
(`tracecat/integrations/_registry.py`).

The embedding models:
- the process environment as an association list of string pairs with
  `os.environ`-style assignment (overwrite-or-append) and deletion
  (`del`, raising `KeyError` when the key is absent);
- secret records (`Secret`) as a name plus an ordered list of key/value
  pairs, with `_set_secrets` / `_unset_secrets` translated loop-for-loop;
- the per-integration `wrapper` closure, with its `try/except/finally`
  control flow made explicit (a failure in the `finally` cleanup replaces
  the in-flight result, as in Python);
- registration (`decorator_register`) over a `Registry` holding the
  `_integrations` and `_metadata` maps as insertion-ordered association
  lists, Python dicts being insertion-ordered.

External collaborators that live outside the translated file
(`validate_type_constraints`, `get_integration_platform`,
`get_integration_key`, `param_to_spec`) are modelled from the spec; each
such definition says so in its doc comment.
-/

set_option autoImplicit false

/-- Decidable equality for `Except`, so that concrete runs of the fallible
operations can be checked by `decide`. -/
instance exceptDecEq {ε α : Type} [DecidableEq ε] [DecidableEq α] :
    DecidableEq (Except ε α)
  | .ok a, .ok b =>
    if h : a = b then .isTrue (by rw [h])
    else .isFalse (fun hc => h (Except.ok.inj hc))
  | .ok _, .error _ => .isFalse (fun hc => Except.noConfusion hc)
  | .error _, .ok _ => .isFalse (fun hc => Except.noConfusion hc)
  | .error e, .error e' =>
    if h : e = e' then .isTrue (by rw [h])
    else .isFalse (fun hc => h (Except.error.inj hc))

/-- A value passed around at call time (function arguments, role tokens,
environment values). Modelled as a string. -/
abbrev Val := String

/-- The ambient process environment, as an insertion-ordered association
list of key/value pairs (a model of `os.environ`). -/
abbrev Env := List (String × String)

/-- The list of keys present in an environment. -/
def envKeys (env : Env) : List String := env.map Prod.fst

/-- First-match lookup in an association list (Python `dict.get`). -/
def alistLookup {α : Type} (l : List (String × α)) (k : String) : Option α :=
  (l.find? (fun p => p.1 == k)).map Prod.snd

/-- `os.environ[k] = v`: overwrite the entry in place when the key is
present, append it otherwise. -/
def setEnv (env : Env) (k v : String) : Env :=
  if env.any (fun p => p.1 == k) then
    env.map (fun p => if p.1 == k then (k, v) else p)
  else env ++ [(k, v)]

/-- `del os.environ[k]`: remove the entry when present, raise `KeyError`
(the `.error` branch, carrying the missing key) otherwise. -/
def delEnv (env : Env) (k : String) : Except String Env :=
  if env.any (fun p => p.1 == k) then .ok (env.eraseP (fun p => p.1 == k))
  else .error k

/-- A secret record: a name plus ordered key/value pairs
(`tracecat.db.Secret` as consumed by the registry). -/
structure Secret where
  name : String
  keys : List (String × String)
  deriving DecidableEq

/-- The inner loop of `_set_secrets`: assign every key/value pair. -/
def setKeys (env : Env) (kvs : List (String × String)) : Env :=
  kvs.foldl (fun e kv => setEnv e kv.1 kv.2) env

/-- `Registry._set_secrets`: for each secret, write each of its key/value
pairs into the environment. -/
def _set_secrets (env : Env) (ss : List Secret) : Env :=
  ss.foldl (fun e s => setKeys e s.keys) env

/-- The inner loop of `_unset_secrets`: `del os.environ[kv.key]` for each
pair; a `KeyError` aborts the loop, carrying the missing key and the
environment at that point (earlier deletions persist). -/
def unsetKeys (env : Env) (kvs : List (String × String)) : Except (String × Env) Env :=
  match kvs with
  | [] => .ok env
  | kv :: rest =>
    match delEnv env kv.1 with
    | .ok env' => unsetKeys env' rest
    | .error k => .error (k, env)

/-- `Registry._unset_secrets`: delete every injected key, secret by secret;
there is no existence check, so a missing key raises `KeyError`. -/
def _unset_secrets (env : Env) (ss : List Secret) : Except (String × Env) Env :=
  match ss with
  | [] => .ok env
  | s :: rest =>
    match unsetKeys env s.keys with
    | .ok env' => _unset_secrets env' rest
    | .error p => .error p

/-- Errors that can surface from an invocation of the wrapper: a failure
propagated from the secrets store, an error raised by the wrapped callable
itself, or a `KeyError` escaping the cleanup in the `finally` block. -/
inductive WErr where
  | fetchFailed (msg : String)
  | userError (msg : String)
  | keyError (key : String)
  deriving DecidableEq

/-- The default role used when the caller passes no `__role` keyword:
`Role(type="service")`. -/
def defaultRole : Val := "Role type=service"

/-- `kwargs.pop("__role", Role(type="service"))`, the value part: the role
token consumed by the wrapper. -/
def roleOf (kwargs : List (String × Val)) : Val :=
  (alistLookup kwargs "__role").getD defaultRole

/-- `kwargs.pop("__role", ...)`, the mutation part: the keyword arguments
actually forwarded to the wrapped callable. -/
def popRole (kwargs : List (String × Val)) : List (String × Val) :=
  kwargs.eraseP (fun p => p.1 == "__role")

/-- The `wrapper` closure built by `decorator_register`, translated with
its `try/except/finally` control flow made explicit.

- `secretNames` is the `secrets` list captured at registration
  (`if secrets:` treats an empty list like `None`);
- `fetch` models `self._get_secrets(role=role, secret_names=secrets)`,
  i.e. the round trip to the secrets store scoped by the role token;
- `func` is the wrapped callable; it receives the current environment and
  returns its result (or raised error) together with the environment it
  leaves behind.

The `finally` block runs `_unset_secrets` on the secrets applied so far
(`[]` when the fetch failed or no secrets were declared); when that
cleanup itself raises `KeyError`, the in-flight result — return value or
exception alike — is replaced by the `KeyError`, as in Python. -/
def wrapper {V : Type} (secretNames : List String)
    (fetch : Val → Except WErr (List Secret))
    (func : Env → List Val → List (String × Val) → Except WErr V × Env)
    (env : Env) (args : List Val) (kwargs : List (String × Val)) :
    Except WErr V × Env :=
  let role := roleOf kwargs
  let kwargs2 := popRole kwargs
  if secretNames.isEmpty then
    let r := func env args kwargs2
    match _unset_secrets r.2 [] with
    | .ok env2 => (r.1, env2)
    | .error p => (.error (.keyError p.1), p.2)
  else
    match fetch role with
    | .error e =>
      match _unset_secrets env [] with
      | .ok env2 => (.error e, env2)
      | .error p => (.error (.keyError p.1), p.2)
    | .ok objs =>
      let env1 := _set_secrets env objs
      let r := func env1 args kwargs2
      match _unset_secrets r.2 objs with
      | .ok env2 => (r.1, env2)
      | .error p => (.error (.keyError p.1), p.2)

/-- A declared parameter of a callable, as seen through `inspect`:
its name, the textual rendering of its declared type constraint, whether
that constraint lies in the supported constraint grammar, and its declared
default value (`none` = no default). -/
structure Param where
  name : String
  typeDesc : String
  supported : Bool
  default : Option Val
  deriving DecidableEq

/-- The static data of a candidate integration callable: whether the
object is callable at all, its `__name__`, `__doc__`, platform
classification, declared parameters in order, and return annotation. -/
structure Func where
  isCallableFn : Bool
  name : String
  doc : Option String
  platformTag : Option String
  params : List Param
  returnAnn : Option String
  deriving DecidableEq

/-- One parameter descriptor of an `IntegrationSpec`. -/
structure ParameterSpec where
  name : String
  typeDesc : String
  required : Bool
  default : Option Val
  deriving DecidableEq

/-- The declarative specification of an integration produced at
registration time by `_create_spec`. -/
structure IntegrationSpec where
  name : String
  description : String
  docstring : String
  platform : String
  parameters : List ParameterSpec
  deriving DecidableEq

/-- The metadata record stored under a key in `Registry._metadata`. -/
structure Meta where
  platform : String
  description : String
  returnType : String
  specification : IntegrationSpec
  extra : List (String × String)
  deriving DecidableEq

/-- Errors a registration attempt can raise (the spec's taxonomy; in the
source all three are `ValueError`s or errors from validation). -/
inductive RegErr where
  | unsupportedSignature
  | duplicateRegistration (key : String)
  | invalidIntegration
  deriving DecidableEq

/-- The registry state: the `_integrations` and `_metadata` dicts, as
insertion-ordered association lists. The stored `Func` stands for the
wrapped callable closed over at registration. -/
structure Registry where
  integrations : List (String × Func)
  metadata : List (String × Meta)
  deriving DecidableEq

/-- Modelled from the spec: `get_integration_platform`
(`tracecat/integrations/utils.py`, not under `src/`). Callables without an
explicit platform classification deterministically fall back to a default
platform value. -/
def get_integration_platform (f : Func) : String :=
  f.platformTag.getD "generic"

/-- Modelled from the spec: `get_integration_key`
(`tracecat/integrations/utils.py`, not under `src/`). A deterministic,
pure function of the callable's identity: its platform tag joined with its
declared name. -/
def get_integration_key (f : Func) : String :=
  get_integration_platform f ++ "." ++ f.name

/-- Modelled from the spec: `validate_type_constraints`
(`tracecat/integrations/_meta.py`, not under `src/`). Accepts the callable
iff every declared parameter's type constraint lies in the supported
constraint grammar; on violation registration fails with
`UnsupportedSignature`. -/
def validate_type_constraints (f : Func) : Bool :=
  f.params.all (fun p => p.supported)

/-- Modelled from the spec: `param_to_spec`
(`tracecat/integrations/_meta.py`, not under `src/`). `required` is true
iff no default value is declared; the default is kept when present. -/
def param_to_spec (p : Param) : ParameterSpec :=
  ⟨p.name, p.typeDesc, p.default.isNone, p.default⟩

/-- `str(func.__annotations__.get("return"))`: the textual rendering of
the return annotation, `str(None)` when absent. -/
def returnTypeStr (f : Func) : String :=
  match f.returnAnn with
  | some s => s
  | none => "None"

/-- `Registry._create_spec`: build the `IntegrationSpec` for a callable,
with the docstring falling back to a fixed placeholder. -/
def _create_spec (f : Func) (description : String) : IntegrationSpec :=
  ⟨f.name, description, f.doc.getD "No documentation provided.",
    get_integration_platform f, f.params.map param_to_spec⟩

/-- The metadata record `decorator_register` stores: platform,
description, rendered return type, the built specification, and the
caller-supplied extra keyword metadata. -/
def mkMeta (f : Func) (description : String) (extra : List (String × String)) : Meta :=
  ⟨get_integration_platform f, description, returnTypeStr f,
    _create_spec f description, extra⟩

/-- `decorator_register`, the body of `Registry.register(...)`: validate
the type constraints, resolve platform and key, then check for a
duplicate key, then check callability, and only then store the wrapped
callable and its metadata under the key (in both maps, atomically). The
check order is exactly the source order. -/
def decorator_register (r : Registry) (description : String)
    (extra : List (String × String)) (f : Func) : Except RegErr Registry :=
  if validate_type_constraints f = false then .error .unsupportedSignature
  else
    let key := get_integration_key f
    if (r.integrations.map Prod.fst).contains key then
      .error (.duplicateRegistration key)
    else if f.isCallableFn = false then .error .invalidIntegration
    else .ok ⟨r.integrations ++ [(key, f)],
              r.metadata ++ [(key, mkMeta f description extra)]⟩

/-- One registration attempt: the decorator-factory arguments plus the
decorated object. -/
structure Attempt where
  description : String
  extra : List (String × String)
  func : Func
  deriving DecidableEq

/-- Run one registration attempt against the registry: a raised
registration error leaves the registry unchanged (all checks precede the
stores). -/
def applyAttempt (r : Registry) (a : Attempt) : Registry :=
  match decorator_register r a.description a.extra a.func with
  | .ok r' => r'
  | .error _ => r

/-- The registry before any registration. -/
def emptyRegistry : Registry := ⟨[], []⟩

/-- Run a sequence of registration attempts from the empty registry. -/
def runAttempts (as : List Attempt) : Registry :=
  as.foldl applyAttempt emptyRegistry

/-- The list comprehension
`[self.metadata[key]["specification"] for key in self.integrations]`,
with the possible `KeyError` of `self.metadata[key]` modelled as `none`. -/
def specsFor (metadata : List (String × Meta)) :
    List (String × Func) → Option (List IntegrationSpec)
  | [] => some []
  | p :: rest =>
    match alistLookup metadata p.1 with
    | none => none
    | some m =>
      match specsFor metadata rest with
      | none => none
      | some specs => some (m.specification :: specs)

/-- `Registry.get_registered_integration_specs`. -/
def get_registered_integration_specs (r : Registry) : Option (List IntegrationSpec) :=
  specsFor r.metadata r.integrations

/-- `Registry.list_integrations`: the registered keys in insertion
order. -/
def list_integrations (r : Registry) : List String :=
  r.integrations.map Prod.fst

/-- Reference acceptance rule from the spec: which attempts of a sequence
are successfully registered, given the keys already in use — those whose
callable passes signature validation, whose key is not yet used, and which
are callable. Used to state order/uniqueness of the exported specs. -/
def acceptedAttempts : List Attempt → List String → List Attempt
  | [], _ => []
  | a :: rest, used =>
    if validate_type_constraints a.func
        && !(used.contains (get_integration_key a.func))
        && a.func.isCallableFn then
      a :: acceptedAttempts rest (used ++ [get_integration_key a.func])
    else
      acceptedAttempts rest used

/-- The entry a successful registration appends to `_integrations`. -/
def entryOf (a : Attempt) : String × Func :=
  (get_integration_key a.func, a.func)

/-- The entry a successful registration appends to `_metadata`. -/
def metaEntryOf (a : Attempt) : String × Meta :=
  (get_integration_key a.func, mkMeta a.func a.description a.extra)

/-- All key/value pairs injected by a list of secret records, in
injection order. -/
def secretKvs (ss : List Secret) : List (String × String) :=
  (ss.map Secret.keys).flatten

/-- All environment keys injected by a list of secret records. -/
def secretKeyNames (ss : List Secret) : List String :=
  (secretKvs ss).map Prod.fst

/-- An instrumented callable that reports exactly the positional and
keyword arguments it was invoked with, leaving the environment alone.
Used to observe what the wrapper forwards. -/
def recorder (env : Env) (args : List Val) (kwargs : List (String × Val)) :
    Except WErr (List Val × List (String × Val)) × Env :=
  (.ok (args, kwargs), env)

/-! ### Association-list and environment lemmas -/

theorem alistLookup_nil {α : Type} (k : String) :
    alistLookup ([] : List (String × α)) k = none := rfl

theorem alistLookup_cons {α : Type} (p : String × α) (t : List (String × α)) (k : String) :
    alistLookup (p :: t) k = if p.1 = k then some p.2 else alistLookup t k := by
  by_cases h : p.1 = k <;> simp [alistLookup, List.find?_cons, h]

theorem alistLookup_eq_none {α : Type} (l : List (String × α)) (k : String) :
    alistLookup l k = none ↔ k ∉ l.map Prod.fst := by
  induction l with
  | nil => simp [alistLookup]
  | cons p t ih =>
    rw [alistLookup_cons, List.map_cons]
    by_cases h : p.1 = k
    · constructor
      · intro hc; rw [if_pos h] at hc; exact absurd hc (by simp)
      · intro hc; exact absurd (List.mem_cons.mpr (Or.inl h.symm)) hc
    · constructor
      · intro hn hc
        rcases List.mem_cons.mp hc with hc | hc
        · exact h hc.symm
        · exact (ih.mp (by simpa [h] using hn)) hc
      · intro hn
        rw [if_neg h]
        exact ih.mpr (fun hc => hn (List.mem_cons_of_mem _ hc))

theorem alistLookup_isSome {α : Type} (l : List (String × α)) (k : String) :
    (alistLookup l k).isSome = true ↔ k ∈ l.map Prod.fst := by
  constructor
  · intro hs
    by_contra hmem
    rw [(alistLookup_eq_none l k).mpr hmem] at hs
    exact Bool.false_ne_true hs
  · intro hmem
    cases h : alistLookup l k with
    | some v => rfl
    | none => exact absurd hmem ((alistLookup_eq_none l k).mp h)

theorem anyKey_eq_true (env : Env) (k : String) :
    env.any (fun p => p.1 == k) = true ↔ k ∈ env.map Prod.fst := by
  rw [List.any_eq_true]
  constructor
  · rintro ⟨p, hp, he⟩
    exact List.mem_map.mpr ⟨p, hp, beq_iff_eq.mp he⟩
  · intro hm
    rcases List.mem_map.mp hm with ⟨p, hp, he⟩
    exact ⟨p, hp, beq_iff_eq.mpr he⟩

theorem alistLookup_append_of_none {α : Type} (l₁ l₂ : List (String × α)) (k : String)
    (h : alistLookup l₁ k = none) :
    alistLookup (l₁ ++ l₂) k = alistLookup l₂ k := by
  induction l₁ with
  | nil => simp
  | cons p t ih =>
    rw [List.cons_append, alistLookup_cons]
    rw [alistLookup_cons] at h
    by_cases hp : p.1 = k
    · rw [if_pos hp] at h; exact absurd h (by simp)
    · rw [if_neg hp] at h
      rw [if_neg hp]
      exact ih h

/-- Assigning a key that is not yet present appends the pair. -/
theorem setEnv_fresh (env : Env) (k v : String) (h : k ∉ env.map Prod.fst) :
    setEnv env k v = env ++ [(k, v)] := by
  have : env.any (fun p => p.1 == k) = false := by
    rw [← Bool.not_eq_true, anyKey_eq_true]; exact h
  simp [setEnv, this]

/-- Writing a block of pairs whose keys are fresh and pairwise distinct
appends the block. -/
theorem setKeys_fresh (kvs : List (String × String)) :
    ∀ env : Env, (kvs.map Prod.fst).Nodup →
    (∀ k ∈ kvs.map Prod.fst, k ∉ env.map Prod.fst) →
    setKeys env kvs = env ++ kvs := by
  induction kvs with
  | nil => intro env _ _; simp [setKeys]
  | cons kv t ih =>
    intro env hnd hfresh
    rw [List.map_cons] at hnd
    obtain ⟨h1, h2⟩ := List.nodup_cons.mp hnd
    have hk : kv.1 ∉ env.map Prod.fst :=
      hfresh kv.1 (by rw [List.map_cons]; exact List.mem_cons_self _ _)
    have hfresh' : ∀ k ∈ t.map Prod.fst, k ∉ (env ++ [kv]).map Prod.fst := by
      intro k hkmem
      have hne : k ≠ kv.1 := fun he => h1 (he ▸ hkmem)
      have henv : k ∉ env.map Prod.fst :=
        hfresh k (by rw [List.map_cons]; exact List.mem_cons_of_mem _ hkmem)
      rw [List.map_append]
      intro hc
      rcases List.mem_append.mp hc with hc | hc
      · exact henv hc
      · rcases List.mem_map.mp hc with ⟨q, hq, hqe⟩
        rcases List.mem_singleton.mp hq
        exact hne hqe.symm
    have hstep : setKeys env (kv :: t) = setKeys (env ++ [kv]) t := by
      simp only [setKeys, List.foldl_cons]
      rw [setEnv_fresh env kv.1 kv.2 hk]
    rw [hstep, ih (env ++ [kv]) h2 hfresh', List.append_assoc]
    rfl

/-- Erasing by key skips a prefix that does not contain the key. -/
theorem eraseP_key_append (rest : Env) (k : String) :
    ∀ env : Env, k ∉ env.map Prod.fst →
    (env ++ rest).eraseP (fun p => p.1 == k) = env ++ rest.eraseP (fun p => p.1 == k) := by
  intro env
  induction env with
  | nil => intro _; simp
  | cons p t ih =>
    intro h
    rw [List.map_cons] at h
    have hp1 : p.1 ≠ k := fun he => h (he ▸ List.mem_cons_self _ _)
    have ht : k ∉ t.map Prod.fst := fun hm => h (List.mem_cons_of_mem _ hm)
    have hp : (p.1 == k) = false := beq_eq_false_iff_ne.mpr hp1
    rw [List.cons_append, List.eraseP_cons, hp, cond_false, ih ht, List.cons_append]

/-- Deleting a block of fresh, pairwise-distinct keys that was appended to
the environment restores the environment exactly. -/
theorem unsetKeys_append_inv (kvs : List (String × String)) :
    ∀ env : Env, (kvs.map Prod.fst).Nodup →
    (∀ k ∈ kvs.map Prod.fst, k ∉ env.map Prod.fst) →
    unsetKeys (env ++ kvs) kvs = .ok env := by
  induction kvs with
  | nil => intro env _ _; simp [unsetKeys]
  | cons kv t ih =>
    intro env hnd hfresh
    rw [List.map_cons] at hnd
    obtain ⟨h1, h2⟩ := List.nodup_cons.mp hnd
    have hmem : kv.1 ∈ (env ++ kv :: t).map Prod.fst := by
      rw [List.map_append]
      exact List.mem_append_right _ (by rw [List.map_cons]; exact List.mem_cons_self _ _)
    have hany : (env ++ kv :: t).any (fun p => p.1 == kv.1) = true :=
      (anyKey_eq_true _ _).mpr hmem
    have hk : kv.1 ∉ env.map Prod.fst :=
      hfresh kv.1 (by rw [List.map_cons]; exact List.mem_cons_self _ _)
    have herase : (env ++ kv :: t).eraseP (fun p => p.1 == kv.1) = env ++ t := by
      rw [eraseP_key_append (kv :: t) kv.1 env hk, List.eraseP_cons,
        beq_self_eq_true, cond_true]
    have hdel : delEnv (env ++ kv :: t) kv.1 = .ok (env ++ t) := by
      rw [delEnv, if_pos hany, herase]
    have hfresh' : ∀ k ∈ t.map Prod.fst, k ∉ env.map Prod.fst := by
      intro k hkmem
      exact hfresh k (by rw [List.map_cons]; exact List.mem_cons_of_mem _ hkmem)
    calc unsetKeys (env ++ kv :: t) (kv :: t)
        = unsetKeys (env ++ t) t := by rw [unsetKeys, hdel]
      _ = .ok env := ih env h2 hfresh'

/-! ### Flattening the two nested secret loops -/

theorem set_secrets_flat (ss : List Secret) :
    ∀ env : Env, _set_secrets env ss = setKeys env (secretKvs ss) := by
  induction ss with
  | nil => intro env; rfl
  | cons s rest ih =>
    intro env
    have h2 : setKeys env (secretKvs (s :: rest))
        = setKeys (setKeys env s.keys) (secretKvs rest) := by
      simp only [secretKvs, List.map_cons, List.flatten_cons, setKeys]
      rw [List.foldl_append]
    show _set_secrets (setKeys env s.keys) rest = _
    rw [ih, h2]

theorem unsetKeys_append (l₁ l₂ : List (String × String)) :
    ∀ env : Env, unsetKeys env (l₁ ++ l₂)
      = match unsetKeys env l₁ with
        | .ok env' => unsetKeys env' l₂
        | .error p => .error p := by
  induction l₁ with
  | nil => intro env; rfl
  | cons kv t ih =>
    intro env
    rw [List.cons_append, unsetKeys, unsetKeys]
    cases delEnv env kv.1 with
    | ok env' => exact ih env'
    | error k => rfl

theorem unset_secrets_flat (ss : List Secret) :
    ∀ env : Env, _unset_secrets env ss = unsetKeys env (secretKvs ss) := by
  induction ss with
  | nil => intro env; rfl
  | cons s rest ih =>
    intro env
    rw [secretKvs, List.map_cons, List.flatten_cons, unsetKeys_append]
    show (match unsetKeys env s.keys with
      | .ok env' => _unset_secrets env' rest
      | .error p => .error p) = _
    cases unsetKeys env s.keys with
    | ok env' => exact ih env'
    | error p => rfl

/-- Core environment-scope lemma: applying secret records whose injected
keys are pairwise distinct and absent from the environment, and then
reverting them, restores the environment byte-for-byte. -/
theorem apply_then_revert (env : Env) (ss : List Secret)
    (hnd : (secretKeyNames ss).Nodup)
    (hfresh : ∀ k ∈ secretKeyNames ss, k ∉ envKeys env) :
    _unset_secrets (_set_secrets env ss) ss = .ok env := by
  rw [set_secrets_flat, unset_secrets_flat,
    setKeys_fresh (secretKvs ss) env hnd hfresh,
    unsetKeys_append_inv (secretKvs ss) env hnd hfresh]

/-! ### Cleanup failure analysis (`_unset_secrets` raising `KeyError`) -/

/-- When the blanket deletion loop succeeds on an environment with
duplicate-free keys, the deleted keys were pairwise distinct and all
present. -/
theorem unsetKeys_ok_sound (kvs : List (String × String)) :
    ∀ env env' : Env, (envKeys env).Nodup → unsetKeys env kvs = .ok env' →
    (kvs.map Prod.fst).Nodup ∧ ∀ k ∈ kvs.map Prod.fst, k ∈ envKeys env := by
  induction kvs with
  | nil => intro env env' _ _; exact ⟨List.nodup_nil, by intro k hk; cases hk⟩
  | cons kv t ih =>
    intro env env' henv hok
    rw [unsetKeys] at hok
    cases hdel : delEnv env kv.1 with
    | error k => rw [hdel] at hok; exact absurd hok (by simp)
    | ok env1 =>
      rw [hdel] at hok
      have hmem : kv.1 ∈ envKeys env := by
        by_contra hc
        have : env.any (fun p => p.1 == kv.1) = false := by
          rw [← Bool.not_eq_true, anyKey_eq_true]; exact hc
        rw [delEnv, if_neg (by rw [this]; exact Bool.false_ne_true)] at hdel
        exact absurd hdel (by simp)
      have henv1 : env1 = env.eraseP (fun p => p.1 == kv.1) := by
        rw [delEnv, if_pos ((anyKey_eq_true _ _).mpr hmem)] at hdel
        exact (Except.ok.inj hdel).symm
      have hsub : (env1.map Prod.fst).Sublist (env.map Prod.fst) := by
        rw [henv1]
        exact List.Sublist.map Prod.fst (List.eraseP_sublist env)
      have henv1nd : (envKeys env1).Nodup := List.Nodup.sublist hsub henv
      obtain ⟨hndt, hpres⟩ := ih env1 env' henv1nd hok
      have hnotk : kv.1 ∉ envKeys env1 := by
        rw [henv1]
        revert henv hmem
        clear hsub henv1nd hpres hndt hok henv1 hdel
        induction env with
        | nil => intro _ hmem; cases hmem
        | cons q s ihe =>
          intro hnd hmem
          rw [envKeys, List.map_cons] at hnd
          obtain ⟨hq1, hq2⟩ := List.nodup_cons.mp hnd
          by_cases hq : q.1 = kv.1
          · rw [List.eraseP_cons, beq_iff_eq.mpr hq, cond_true]
            rw [hq] at hq1
            exact hq1
          · rw [List.eraseP_cons, beq_eq_false_iff_ne.mpr hq, cond_false]
            rw [envKeys, List.map_cons]
            intro hc
            rcases List.mem_cons.mp hc with hc | hc
            · exact hq hc.symm
            · rcases List.mem_cons.mp hmem with hm | hm
              · exact hq hm.symm
              · exact ihe hq2 hm hc
      constructor
      · rw [List.map_cons, List.nodup_cons]
        exact ⟨fun hc => hnotk (hpres kv.1 hc), hndt⟩
      · intro k hk
        rw [List.map_cons] at hk
        rcases List.mem_cons.mp hk with hk | hk
        · rw [hk]; exact hmem
        · exact List.Sublist.mem (hpres k hk) hsub

/-- When the revert loop cannot succeed — some injected key occurs twice,
or is absent from the environment — `_unset_secrets` raises `KeyError`. -/
theorem unset_secrets_fails (env : Env) (ss : List Secret)
    (henv : (envKeys env).Nodup)
    (h : ¬ (secretKeyNames ss).Nodup ∨ ∃ k ∈ secretKeyNames ss, k ∉ envKeys env) :
    ∃ p, _unset_secrets env ss = .error p := by
  cases hres : _unset_secrets env ss with
  | error p => exact ⟨p, rfl⟩
  | ok env' =>
    rw [unset_secrets_flat] at hres
    obtain ⟨hnd, hpres⟩ := unsetKeys_ok_sound (secretKvs ss) env env' henv hres
    rcases h with h | ⟨k, hk, hkn⟩
    · exact absurd hnd h
    · exact absurd (hpres k hk) hkn

/-! ### Wrapper control-flow lemmas -/

/-- With no declared secrets the wrapper forwards the call (with `__role`
popped) and returns the callable's own outcome; the cleanup of the empty
secret list is a no-op. -/
theorem wrapper_no_secrets {V : Type} (fetch : Val → Except WErr (List Secret))
    (func : Env → List Val → List (String × Val) → Except WErr V × Env)
    (env : Env) (args : List Val) (kwargs : List (String × Val)) :
    wrapper [] fetch func env args kwargs = func env args (popRole kwargs) := rfl

/-- When the secret fetch fails, the wrapper propagates that error with
the environment untouched, whatever the callable is. -/
theorem wrapper_fetch_fails {V : Type} (secretNames : List String)
    (fetch : Val → Except WErr (List Secret))
    (func : Env → List Val → List (String × Val) → Except WErr V × Env)
    (env : Env) (args : List Val) (kwargs : List (String × Val)) (e : WErr)
    (hne : secretNames.isEmpty = false)
    (hfetch : fetch (roleOf kwargs) = .error e) :
    wrapper secretNames fetch func env args kwargs = (.error e, env) := by
  rw [wrapper]
  simp only [hne, Bool.false_eq_true, if_false, hfetch]
  rfl

/-- When the fetch succeeds, the wrapper injects the records, calls the
callable, and runs the cleanup on the callable's final environment; a
cleanup `KeyError` replaces the callable's outcome. -/
theorem wrapper_fetch_ok {V : Type} (secretNames : List String)
    (fetch : Val → Except WErr (List Secret))
    (func : Env → List Val → List (String × Val) → Except WErr V × Env)
    (env : Env) (args : List Val) (kwargs : List (String × Val))
    (objs : List Secret)
    (hne : secretNames.isEmpty = false)
    (hfetch : fetch (roleOf kwargs) = .ok objs) :
    wrapper secretNames fetch func env args kwargs
      = match _unset_secrets (func (_set_secrets env objs) args (popRole kwargs)).2 objs with
        | .ok env2 => ((func (_set_secrets env objs) args (popRole kwargs)).1, env2)
        | .error p => (.error (.keyError p.1), p.2) := by
  rw [wrapper]
  simp only [hne, Bool.false_eq_true, if_false, hfetch]

/-! ### Popping the role keyword -/

/-- After the pop, the forwarded keyword arguments never contain
`__role` (keyword dicts have pairwise-distinct keys). -/
theorem popRole_not_mem (kwargs : List (String × Val))
    (h : (kwargs.map Prod.fst).Nodup) :
    "__role" ∉ (popRole kwargs).map Prod.fst := by
  induction kwargs with
  | nil => intro hc; cases hc
  | cons p t ih =>
    rw [List.map_cons] at h
    obtain ⟨h1, h2⟩ := List.nodup_cons.mp h
    by_cases hp : p.1 = "__role"
    · rw [popRole, List.eraseP_cons, beq_iff_eq.mpr hp, cond_true]
      exact hp ▸ h1
    · rw [popRole, List.eraseP_cons, beq_eq_false_iff_ne.mpr hp, cond_false,
        List.map_cons]
      intro hc
      rcases List.mem_cons.mp hc with hc | hc
      · exact hp hc.symm
      · exact ih h2 hc

/-- Popping `__role` leaves every other keyword binding unchanged. -/
theorem popRole_lookup_ne (kwargs : List (String × Val)) (k : String)
    (h : k ≠ "__role") :
    alistLookup (popRole kwargs) k = alistLookup kwargs k := by
  induction kwargs with
  | nil => rfl
  | cons p t ih =>
    by_cases hp : p.1 = "__role"
    · rw [popRole, List.eraseP_cons, beq_iff_eq.mpr hp, cond_true,
        alistLookup_cons, if_neg (fun hc => h ((hp ▸ hc).symm))]
    · rw [popRole, List.eraseP_cons, beq_eq_false_iff_ne.mpr hp, cond_false,
        alistLookup_cons, alistLookup_cons]
      by_cases hk : p.1 = k
      · rw [if_pos hk, if_pos hk]
      · rw [if_neg hk, if_neg hk]
        exact ih

/-! ### Registration lemmas -/

theorem decorator_register_unsupported (r : Registry) (d : String)
    (x : List (String × String)) (f : Func)
    (hv : validate_type_constraints f = false) :
    decorator_register r d x f = .error .unsupportedSignature := by
  rw [decorator_register, if_pos hv]

theorem decorator_register_dup (r : Registry) (d : String)
    (x : List (String × String)) (f : Func)
    (hv : validate_type_constraints f = true)
    (hdup : (r.integrations.map Prod.fst).contains (get_integration_key f) = true) :
    decorator_register r d x f = .error (.duplicateRegistration (get_integration_key f)) := by
  rw [decorator_register, if_neg (by rw [hv]; exact fun hc => Bool.noConfusion hc)]
  simp only [hdup, if_true]

theorem decorator_register_not_callable (r : Registry) (d : String)
    (x : List (String × String)) (f : Func)
    (hv : validate_type_constraints f = true)
    (hdup : (r.integrations.map Prod.fst).contains (get_integration_key f) = false)
    (hc : f.isCallableFn = false) :
    decorator_register r d x f = .error .invalidIntegration := by
  rw [decorator_register, if_neg (by rw [hv]; exact fun hc => Bool.noConfusion hc)]
  simp only [hdup, Bool.false_eq_true, if_false, hc, if_pos]

theorem decorator_register_ok (r : Registry) (d : String)
    (x : List (String × String)) (f : Func)
    (hv : validate_type_constraints f = true)
    (hdup : (r.integrations.map Prod.fst).contains (get_integration_key f) = false)
    (hc : f.isCallableFn = true) :
    decorator_register r d x f
      = .ok ⟨r.integrations ++ [(get_integration_key f, f)],
             r.metadata ++ [(get_integration_key f, mkMeta f d x)]⟩ := by
  rw [decorator_register, if_neg (by rw [hv]; exact fun hc => Bool.noConfusion hc)]
  simp only [hdup, Bool.false_eq_true, if_false, hc, Bool.true_eq_false]

/-- A failed registration attempt leaves the registry exactly as it
was. -/
theorem applyAttempt_of_error (r : Registry) (a : Attempt) (e : RegErr)
    (h : decorator_register r a.description a.extra a.func = .error e) :
    applyAttempt r a = r := by
  rw [applyAttempt, h]

/-- A successful registration attempt appends the key to both maps. -/
theorem applyAttempt_of_ok (r : Registry) (a : Attempt)
    (hv : validate_type_constraints a.func = true)
    (hdup : (r.integrations.map Prod.fst).contains (get_integration_key a.func) = false)
    (hc : a.func.isCallableFn = true) :
    applyAttempt r a
      = ⟨r.integrations ++ [(get_integration_key a.func, a.func)],
         r.metadata ++ [(get_integration_key a.func, mkMeta a.func a.description a.extra)]⟩ := by
  rw [applyAttempt, decorator_register_ok r a.description a.extra a.func hv hdup hc]

theorem contains_eq_false (l : List String) (a : String) :
    l.contains a = false ↔ a ∉ l := by
  constructor
  · intro h hm
    rw [List.contains, List.elem_iff.mpr hm] at h
    exact Bool.noConfusion h
  · intro hm
    cases hc : l.contains a with
    | false => rfl
    | true => exact absurd (List.elem_iff.mp hc) hm

/-- Folding a sequence of registration attempts appends to both maps
exactly one entry per accepted attempt, in attempt order. -/
theorem runAttempts_structure (as : List Attempt) :
    ∀ r : Registry,
    (as.foldl applyAttempt r).integrations
        = r.integrations ++ (acceptedAttempts as (r.integrations.map Prod.fst)).map entryOf
    ∧ (as.foldl applyAttempt r).metadata
        = r.metadata ++ (acceptedAttempts as (r.integrations.map Prod.fst)).map metaEntryOf := by
  induction as with
  | nil => intro r; constructor <;> simp [acceptedAttempts]
  | cons a rest ih =>
    intro r
    rw [List.foldl_cons]
    cases hv : validate_type_constraints a.func with
    | false =>
      rw [applyAttempt_of_error r a _
        (decorator_register_unsupported r a.description a.extra a.func hv)]
      have hacc : acceptedAttempts (a :: rest) (r.integrations.map Prod.fst)
          = acceptedAttempts rest (r.integrations.map Prod.fst) := by
        simp only [acceptedAttempts, hv, Bool.false_and, Bool.false_eq_true, if_false]
      rw [hacc]
      exact ih r
    | true =>
      cases hdup : (r.integrations.map Prod.fst).contains (get_integration_key a.func) with
      | true =>
        rw [applyAttempt_of_error r a _
          (decorator_register_dup r a.description a.extra a.func hv hdup)]
        have hacc : acceptedAttempts (a :: rest) (r.integrations.map Prod.fst)
            = acceptedAttempts rest (r.integrations.map Prod.fst) := by
          simp only [acceptedAttempts, hv, hdup, Bool.not_true, Bool.true_and,
            Bool.false_and, Bool.false_eq_true, if_false]
        rw [hacc]
        exact ih r
      | false =>
        cases hc : a.func.isCallableFn with
        | false =>
          rw [applyAttempt_of_error r a _
            (decorator_register_not_callable r a.description a.extra a.func hv hdup hc)]
          have hacc : acceptedAttempts (a :: rest) (r.integrations.map Prod.fst)
              = acceptedAttempts rest (r.integrations.map Prod.fst) := by
            simp only [acceptedAttempts, hv, hdup, hc, Bool.not_false, Bool.true_and,
              Bool.and_false, Bool.false_eq_true, if_false]
          rw [hacc]
          exact ih r
        | true =>
          rw [applyAttempt_of_ok r a hv hdup hc]
          have hacc : acceptedAttempts (a :: rest) (r.integrations.map Prod.fst)
              = a :: acceptedAttempts rest
                  (r.integrations.map Prod.fst ++ [get_integration_key a.func]) := by
            simp only [acceptedAttempts, hv, hdup, hc, Bool.not_false, Bool.true_and,
              Bool.and_true, if_true]
          obtain ⟨ih1, ih2⟩ :=
            ih ⟨r.integrations ++ [entryOf a], r.metadata ++ [metaEntryOf a]⟩
          have hkeys : (r.integrations ++ [entryOf a]).map Prod.fst
              = r.integrations.map Prod.fst ++ [get_integration_key a.func] := by
            rw [List.map_append]; rfl
          constructor
          · show (rest.foldl applyAttempt
              ⟨r.integrations ++ [entryOf a], r.metadata ++ [metaEntryOf a]⟩).integrations = _
            rw [ih1, hkeys, hacc, List.map_cons, List.append_assoc]
            rfl
          · show (rest.foldl applyAttempt
              ⟨r.integrations ++ [entryOf a], r.metadata ++ [metaEntryOf a]⟩).metadata = _
            rw [ih2, hkeys, hacc, List.map_cons, List.append_assoc]
            rfl

/-- The keys accepted from a sequence of attempts extend any
duplicate-free used-key list to a duplicate-free list. -/
theorem acceptedAttempts_nodup (as : List Attempt) :
    ∀ used : List String, used.Nodup →
    (used ++ (acceptedAttempts as used).map (fun a => get_integration_key a.func)).Nodup := by
  induction as with
  | nil => intro used h; simpa [acceptedAttempts] using h
  | cons a rest ih =>
    intro used h
    cases hv : validate_type_constraints a.func with
    | false =>
      have hacc : acceptedAttempts (a :: rest) used = acceptedAttempts rest used := by
        simp only [acceptedAttempts, hv, Bool.false_and, Bool.false_eq_true, if_false]
      rw [hacc]; exact ih used h
    | true =>
      cases hdup : used.contains (get_integration_key a.func) with
      | true =>
        have hacc : acceptedAttempts (a :: rest) used = acceptedAttempts rest used := by
          simp only [acceptedAttempts, hv, hdup, Bool.not_true, Bool.true_and,
            Bool.false_and, Bool.false_eq_true, if_false]
        rw [hacc]; exact ih used h
      | false =>
        cases hc : a.func.isCallableFn with
        | false =>
          have hacc : acceptedAttempts (a :: rest) used = acceptedAttempts rest used := by
            simp only [acceptedAttempts, hv, hdup, hc, Bool.not_false, Bool.true_and,
              Bool.and_false, Bool.false_eq_true, if_false]
          rw [hacc]; exact ih used h
        | true =>
          have hacc : acceptedAttempts (a :: rest) used
              = a :: acceptedAttempts rest (used ++ [get_integration_key a.func]) := by
            simp only [acceptedAttempts, hv, hdup, hc, Bool.not_false, Bool.true_and,
              Bool.and_true, if_true]
          have hkey : get_integration_key a.func ∉ used :=
            (contains_eq_false used (get_integration_key a.func)).mp hdup
          have hused' : (used ++ [get_integration_key a.func]).Nodup := by
            rw [List.nodup_append]
            exact ⟨h, List.nodup_singleton _,
              fun x hx hx' => hkey ((List.mem_singleton.mp hx') ▸ hx)⟩
          have hrec := ih (used ++ [get_integration_key a.func]) hused'
          rw [hacc, List.map_cons]
          rw [List.append_assoc] at hrec
          exact hrec

/-- Looking up the specs of entries whose keys avoid a head key is
unaffected by that head. -/
theorem specsFor_irrel (k0 : String) (m0 : Meta) (M : List (String × Meta)) :
    ∀ entries : List (String × Func), (∀ p ∈ entries, p.1 ≠ k0) →
    specsFor ((k0, m0) :: M) entries = specsFor M entries := by
  intro entries
  induction entries with
  | nil => intro _; rfl
  | cons p t ih =>
    intro h
    have hp : ¬ (k0 = p.1) := fun hc => h p (List.mem_cons_self _ _) hc.symm
    simp only [specsFor]
    rw [alistLookup_cons, if_neg hp, ih (fun q hq => h q (List.mem_cons_of_mem _ hq))]

/-- On lockstep-built entry and metadata lists with duplicate-free keys,
the spec comprehension succeeds and returns one spec per attempt in
order. -/
theorem specsFor_entries (l : List Attempt)
    (hnd : (l.map (fun a => get_integration_key a.func)).Nodup) :
    specsFor (l.map metaEntryOf) (l.map entryOf)
      = some (l.map (fun a => _create_spec a.func a.description)) := by
  induction l with
  | nil => rfl
  | cons a t ih =>
    rw [List.map_cons] at hnd
    obtain ⟨h1, h2⟩ := List.nodup_cons.mp hnd
    have hirrel : ∀ p ∈ t.map entryOf, p.1 ≠ get_integration_key a.func := by
      intro p hp hc
      rcases List.mem_map.mp hp with ⟨b, hb, hbe⟩
      apply h1
      rw [← hc, ← hbe]
      exact List.mem_map.mpr ⟨b, hb, rfl⟩
    rw [List.map_cons, List.map_cons, List.map_cons]
    simp only [specsFor]
    rw [show metaEntryOf a = (get_integration_key a.func, mkMeta a.func a.description a.extra) from rfl,
      show entryOf a = (get_integration_key a.func, a.func) from rfl,
      alistLookup_cons, if_pos rfl,
      specsFor_irrel (get_integration_key a.func) (mkMeta a.func a.description a.extra)
        (t.map metaEntryOf) (t.map entryOf) hirrel,
      ih h2]
    rfl

/-! ### Claim C1 -/

/-- C1 counterexample: with `K` already in the environment, applying a
record that injects `K` and then reverting deletes `K` outright — the
completed apply/revert pair ends with an environment whose key set is not
the one from before the apply. -/
theorem c1_counterexample :
    _unset_secrets (_set_secrets [("K", "old")] [⟨"s", [("K", "v")]⟩])
        [⟨"s", [("K", "v")]⟩] = .ok []
    ∧ envKeys ([] : Env) ≠ envKeys [("K", "old")] := by decide

/-- C1 (amended): for every list of secret records whose injected keys are
pairwise distinct and none of which is already present in the environment,
`_set_secrets` followed immediately by `_unset_secrets` restores the
environment byte-identically (hence the key set is identical). -/
theorem c1_apply_revert_identity (env : Env) (ss : List Secret)
    (hnd : (secretKeyNames ss).Nodup)
    (hfresh : ∀ k ∈ secretKeyNames ss, k ∉ envKeys env) :
    _unset_secrets (_set_secrets env ss) ss = .ok env :=
  apply_then_revert env ss hnd hfresh

/-- C1 witness: a concrete fresh-key apply/revert round trip restoring the
environment. -/
theorem c1_witness :
    _unset_secrets
        (_set_secrets [("HOME", "h")] [⟨"smtp", [("HOST", "x"), ("PASS", "y")]⟩])
        [⟨"smtp", [("HOST", "x"), ("PASS", "y")]⟩]
      = .ok [("HOME", "h")] :=
  c1_apply_revert_identity [("HOME", "h")] [⟨"smtp", [("HOST", "x"), ("PASS", "y")]⟩]
    (by decide) (by decide)

/-! ### Claim C2 -/

/-- C2 counterexample: for a registration whose key is already present and
whose callable's signature also fails validation, `decorator_register`
raises the signature-validation error, not the duplicate-registration
error — validation runs first in the source. -/
theorem c2_counterexample :
    decorator_register
        ⟨[("generic.g", ⟨true, "g", none, none, [], none⟩)],
         [("generic.g", mkMeta ⟨true, "g", none, none, [], none⟩ "first" [])]⟩
        "second" [] ⟨true, "g", none, none, [⟨"x", "int or str", false, none⟩], none⟩
      = .error .unsupportedSignature
    ∧ RegErr.unsupportedSignature ≠ RegErr.duplicateRegistration "generic.g" := by
  decide

/-- C2 (amended): `register` performs its failure checks in the order
(1) signature/type-constraint validation, (2) duplicate key,
(3) supplied object not callable; in particular a registration under an
already-present key fails with the duplicate-registration error exactly
when its callable passes validation. -/
theorem c2_check_order :
    (∀ (r : Registry) (d : String) (x : List (String × String)) (f : Func),
      validate_type_constraints f = false →
      decorator_register r d x f = .error .unsupportedSignature)
    ∧ (∀ (r : Registry) (d : String) (x : List (String × String)) (f : Func),
      validate_type_constraints f = true →
      (r.integrations.map Prod.fst).contains (get_integration_key f) = true →
      decorator_register r d x f = .error (.duplicateRegistration (get_integration_key f)))
    ∧ (∀ (r : Registry) (d : String) (x : List (String × String)) (f : Func),
      validate_type_constraints f = true →
      (r.integrations.map Prod.fst).contains (get_integration_key f) = false →
      f.isCallableFn = false →
      decorator_register r d x f = .error .invalidIntegration) :=
  ⟨decorator_register_unsupported, decorator_register_dup,
    decorator_register_not_callable⟩

/-- C2 witness: the three check stages observed on concrete inputs. -/
theorem c2_witness :
    decorator_register emptyRegistry "d" []
        ⟨true, "u", none, none, [⟨"x", "t", false, none⟩], none⟩
      = .error .unsupportedSignature
    ∧ decorator_register
        ⟨[("generic.a", ⟨true, "a", none, none, [], none⟩)],
         [("generic.a", mkMeta ⟨true, "a", none, none, [], none⟩ "d" [])]⟩
        "d" [] ⟨true, "a", none, none, [], none⟩
      = .error (.duplicateRegistration "generic.a")
    ∧ decorator_register emptyRegistry "d" [] ⟨false, "b", none, none, [], none⟩
      = .error .invalidIntegration :=
  ⟨c2_check_order.1 emptyRegistry "d" []
      ⟨true, "u", none, none, [⟨"x", "t", false, none⟩], none⟩ (by decide),
    c2_check_order.2.1
      ⟨[("generic.a", ⟨true, "a", none, none, [], none⟩)],
       [("generic.a", mkMeta ⟨true, "a", none, none, [], none⟩ "d" [])]⟩
      "d" [] ⟨true, "a", none, none, [], none⟩ (by decide) (by decide),
    c2_check_order.2.2 emptyRegistry "d" [] ⟨false, "b", none, none, [], none⟩
      (by decide) (by decide) (by decide)⟩

/-! ### Claim C3 -/

/-- C3 counterexample: a non-callable whose key is already registered is
rejected with the duplicate-registration error, not the
invalid-integration error — the duplicate check precedes the callable
check. -/
theorem c3_counterexample :
    decorator_register
        ⟨[("generic.h", ⟨true, "h", none, none, [], none⟩)],
         [("generic.h", mkMeta ⟨true, "h", none, none, [], none⟩ "first" [])]⟩
        "second" [] ⟨false, "h", none, none, [], none⟩
      = .error (.duplicateRegistration "generic.h")
    ∧ RegErr.duplicateRegistration "generic.h" ≠ RegErr.invalidIntegration := by
  decide

/-- C3 (amended): a non-callable object that passes signature validation
and whose key is not already registered is rejected with the
invalid-integration error, and no entry is added to either map. -/
theorem c3_not_callable_rejected (r : Registry) (d : String)
    (x : List (String × String)) (f : Func)
    (hnc : f.isCallableFn = false)
    (hv : validate_type_constraints f = true)
    (hnew : (r.integrations.map Prod.fst).contains (get_integration_key f) = false) :
    decorator_register r d x f = .error .invalidIntegration
    ∧ applyAttempt r ⟨d, x, f⟩ = r := by
  have h := decorator_register_not_callable r d x f hv hnew hnc
  exact ⟨h, applyAttempt_of_error r ⟨d, x, f⟩ _ h⟩

/-- C3 witness: a concrete fresh-key non-callable registration attempt. -/
theorem c3_witness :
    decorator_register emptyRegistry "d" [] ⟨false, "nc", none, none, [], none⟩
      = .error .invalidIntegration
    ∧ applyAttempt emptyRegistry ⟨"d", [], ⟨false, "nc", none, none, [], none⟩⟩
      = emptyRegistry :=
  c3_not_callable_rejected emptyRegistry "d" [] ⟨false, "nc", none, none, [], none⟩
    (by decide) (by decide) (by decide)

/-! ### Claim C4 -/

/-- C4 counterexample: a second registration under an already-present key
does not fail with the duplicate-registration error when the new
callable's signature fails validation — the validation error wins. -/
theorem c4_counterexample :
    decorator_register
        ⟨[("generic.q", ⟨true, "q", none, none, [], none⟩)],
         [("generic.q", mkMeta ⟨true, "q", none, none, [], none⟩ "first" [])]⟩
        "second" [] ⟨true, "q", none, none, [⟨"y", "list of dict", false, none⟩], none⟩
      ≠ .error (.duplicateRegistration "generic.q") := by decide

/-- C4 (amended): a second registration under an already-present key by a
callable that passes signature validation fails with the
duplicate-registration error, and in every such failed attempt the first
entry's stored callable and metadata record are unchanged. -/
theorem c4_duplicate_preserves_entry (r : Registry) (d : String)
    (x : List (String × String)) (f : Func)
    (hv : validate_type_constraints f = true)
    (hdup : (r.integrations.map Prod.fst).contains (get_integration_key f) = true) :
    decorator_register r d x f = .error (.duplicateRegistration (get_integration_key f))
    ∧ applyAttempt r ⟨d, x, f⟩ = r
    ∧ (∀ k, alistLookup (applyAttempt r ⟨d, x, f⟩).integrations k
        = alistLookup r.integrations k)
    ∧ ∀ k, alistLookup (applyAttempt r ⟨d, x, f⟩).metadata k
        = alistLookup r.metadata k := by
  have h := decorator_register_dup r d x f hv hdup
  have happ := applyAttempt_of_error r ⟨d, x, f⟩ _ h
  exact ⟨h, happ, fun k => by rw [happ], fun k => by rw [happ]⟩

/-- C4 witness: a concrete duplicate registration leaving the first entry
intact. -/
theorem c4_witness :
    decorator_register
        ⟨[("generic.a", ⟨true, "a", none, none, [], none⟩)],
         [("generic.a", mkMeta ⟨true, "a", none, none, [], none⟩ "one" [])]⟩
        "two" [] ⟨true, "a", none, none, [⟨"z", "int", true, none⟩], none⟩
      = .error (.duplicateRegistration "generic.a")
    ∧ applyAttempt
        ⟨[("generic.a", ⟨true, "a", none, none, [], none⟩)],
         [("generic.a", mkMeta ⟨true, "a", none, none, [], none⟩ "one" [])]⟩
        ⟨"two", [], ⟨true, "a", none, none, [⟨"z", "int", true, none⟩], none⟩⟩
      = ⟨[("generic.a", ⟨true, "a", none, none, [], none⟩)],
         [("generic.a", mkMeta ⟨true, "a", none, none, [], none⟩ "one" [])]⟩
    ∧ (∀ k, alistLookup (applyAttempt
        ⟨[("generic.a", ⟨true, "a", none, none, [], none⟩)],
         [("generic.a", mkMeta ⟨true, "a", none, none, [], none⟩ "one" [])]⟩
        ⟨"two", [], ⟨true, "a", none, none, [⟨"z", "int", true, none⟩], none⟩⟩).integrations k
        = alistLookup [("generic.a", ⟨true, "a", none, none, [], none⟩)] k)
    ∧ ∀ k, alistLookup (applyAttempt
        ⟨[("generic.a", ⟨true, "a", none, none, [], none⟩)],
         [("generic.a", mkMeta ⟨true, "a", none, none, [], none⟩ "one" [])]⟩
        ⟨"two", [], ⟨true, "a", none, none, [⟨"z", "int", true, none⟩], none⟩⟩).metadata k
        = alistLookup [("generic.a", mkMeta ⟨true, "a", none, none, [], none⟩ "one" [])] k :=
  c4_duplicate_preserves_entry
    ⟨[("generic.a", ⟨true, "a", none, none, [], none⟩)],
     [("generic.a", mkMeta ⟨true, "a", none, none, [], none⟩ "one" [])]⟩
    "two" [] ⟨true, "a", none, none, [⟨"z", "int", true, none⟩], none⟩
    (by decide) (by decide)

/-! ### Claim C5 -/

/-- C5: when the secret fetch fails, the wrapper propagates exactly the
fetch error, the wrapped callable is never consulted (the result is the
same for every callable), and the environment component of the outcome is
exactly the environment from before the invocation. -/
theorem c5_fetch_failure_propagates (V : Type) (secretNames : List String)
    (fetch : Val → Except WErr (List Secret))
    (func : Env → List Val → List (String × Val) → Except WErr V × Env)
    (env : Env) (args : List Val) (kwargs : List (String × Val)) (e : WErr)
    (hne : secretNames.isEmpty = false)
    (hfetch : fetch (roleOf kwargs) = .error e) :
    wrapper secretNames fetch func env args kwargs = (.error e, env) :=
  wrapper_fetch_fails secretNames fetch func env args kwargs e hne hfetch

/-- C5 witness: a concrete failing fetch, propagated with the environment
untouched and the callable ignored. -/
theorem c5_witness :
    wrapper ["smtp"] (fun _ => .error (.fetchFailed "store down"))
        (fun env _ _ => (.ok "ran", env)) [("HOME", "h")] [] []
      = (.error (.fetchFailed "store down"), [("HOME", "h")]) :=
  c5_fetch_failure_propagates String ["smtp"] (fun _ => .error (.fetchFailed "store down"))
    (fun env _ _ => (.ok "ran", env)) [("HOME", "h")] [] [] (.fetchFailed "store down")
    (by decide) rfl

/-! ### Claim C6 -/

/-- C6 counterexample: the callable raises `userError "boom"` after having
emptied the environment; the revert in the `finally` block then raises
`KeyError`, and the caller observes the `KeyError`, not the original
error — so the original exception is not re-raised unchanged on every
raising invocation. -/
theorem c6_counterexample :
    @wrapper String ["s"] (fun _ => .ok [⟨"s", [("K", "v")]⟩])
        (fun _ _ _ => (.error (.userError "boom"), [])) [] [] []
      = (.error (.keyError "K"), [])
    ∧ WErr.keyError "K" ≠ WErr.userError "boom" := by decide

/-- C6 (amended): when the wrapped callable raises and the revert of the
applied records succeeds, the wrapper re-raises exactly the original
error, and the environment delivered alongside it is the post-revert
environment — the revert runs before the error reaches the caller. When
the revert itself raises, its error replaces the original (see C9). -/
theorem c6_reraise_after_revert (V : Type) (secretNames : List String)
    (fetch : Val → Except WErr (List Secret))
    (func : Env → List Val → List (String × Val) → Except WErr V × Env)
    (env : Env) (args : List Val) (kwargs : List (String × Val))
    (objs : List Secret) (e : WErr) (env2 env3 : Env)
    (hne : secretNames.isEmpty = false)
    (hfetch : fetch (roleOf kwargs) = .ok objs)
    (hf : func (_set_secrets env objs) args (popRole kwargs) = (.error e, env2))
    (hunset : _unset_secrets env2 objs = .ok env3) :
    wrapper secretNames fetch func env args kwargs = (.error e, env3) := by
  rw [wrapper_fetch_ok secretNames fetch func env args kwargs objs hne hfetch,
    hf, hunset]

/-- C6 witness: a concrete raising callable whose original error survives
the successful revert. -/
theorem c6_witness :
    @wrapper String ["s"] (fun _ => .ok [⟨"s", [("K", "v")]⟩])
        (fun env _ _ => (.error (.userError "boom"), env)) [] [] []
      = (.error (.userError "boom"), []) :=
  c6_reraise_after_revert String ["s"] (fun _ => .ok [⟨"s", [("K", "v")]⟩])
    (fun env _ _ => (.error (.userError "boom"), env)) [] [] []
    [⟨"s", [("K", "v")]⟩] (.userError "boom") [("K", "v")] []
    (by decide) rfl rfl (by decide)

/-! ### Claim C7 -/

/-- C7: after any sequence of registration attempts from the empty
registry, `get_registered_integration_specs` succeeds and returns exactly
one `IntegrationSpec` per accepted attempt, in the order the keys were
successfully registered; the registered keys are pairwise distinct and are
exactly the accepted keys in order (rejected re-attempts contribute
nothing). -/
theorem c7_specs_one_per_key (as : List Attempt) :
    get_registered_integration_specs (runAttempts as)
      = some ((acceptedAttempts as []).map (fun a => _create_spec a.func a.description))
    ∧ ((runAttempts as).integrations.map Prod.fst).Nodup
    ∧ (runAttempts as).integrations.map Prod.fst
      = (acceptedAttempts as []).map (fun a => get_integration_key a.func) := by
  have hint : (runAttempts as).integrations = (acceptedAttempts as []).map entryOf := by
    have h := (runAttempts_structure as emptyRegistry).1
    simpa [runAttempts, emptyRegistry] using h
  have hmeta : (runAttempts as).metadata = (acceptedAttempts as []).map metaEntryOf := by
    have h := (runAttempts_structure as emptyRegistry).2
    simpa [runAttempts, emptyRegistry] using h
  have hnd0 : ((acceptedAttempts as []).map (fun a => get_integration_key a.func)).Nodup := by
    have h := acceptedAttempts_nodup as [] List.nodup_nil
    simpa using h
  refine ⟨?_, ?_, ?_⟩
  · rw [get_registered_integration_specs, hint, hmeta, specsFor_entries _ hnd0]
  · rw [hint, List.map_map]
    exact hnd0
  · rw [hint, List.map_map]
    rfl

/-! ### Claim C8 -/

/-- C8: the wrapper consumes the `__role` keyword argument — the wrapped
callable receives exactly the original positional arguments and the
keyword arguments with `__role` popped, `__role` is never forwarded, and
every other keyword binding is unchanged. Stated via an instrumented
callable that reports what it was invoked with. -/
theorem c8_role_consumed (secretNames : List String)
    (fetch : Val → Except WErr (List Secret))
    (env : Env) (args : List Val) (kwargs : List (String × Val))
    (objs : List Secret)
    (hk : (kwargs.map Prod.fst).Nodup)
    (hfetch : fetch (roleOf kwargs) = .ok objs)
    (hnd : (secretKeyNames objs).Nodup)
    (hfresh : ∀ k ∈ secretKeyNames objs, k ∉ envKeys env) :
    wrapper secretNames fetch recorder env args kwargs
      = (.ok (args, popRole kwargs), env)
    ∧ "__role" ∉ (popRole kwargs).map Prod.fst
    ∧ ∀ k, k ≠ "__role" → alistLookup (popRole kwargs) k = alistLookup kwargs k := by
  refine ⟨?_, popRole_not_mem kwargs hk, fun k h => popRole_lookup_ne kwargs k h⟩
  cases hni : secretNames.isEmpty with
  | true =>
    rw [wrapper]
    simp only [hni, if_true]
    rfl
  | false =>
    rw [wrapper_fetch_ok secretNames fetch recorder env args kwargs objs hni hfetch,
      show recorder (_set_secrets env objs) args (popRole kwargs)
        = (.ok (args, popRole kwargs), _set_secrets env objs) from rfl,
      apply_then_revert env objs hnd hfresh]

/-- C8 witness: a concrete invocation with a `__role` keyword and one
declared secret; the callable observes the role stripped and the other
keyword intact. -/
theorem c8_witness :
    wrapper ["smtp"] (fun _ => .ok [⟨"smtp", [("HOST", "x")]⟩]) recorder
        [("HOME", "h")] ["body"] [("__role", "Role user"), ("to", "alice")]
      = (.ok (["body"], popRole [("__role", "Role user"), ("to", "alice")]),
          [("HOME", "h")])
    ∧ "__role" ∉ (popRole [("__role", "Role user"), ("to", "alice")]).map Prod.fst
    ∧ ∀ k, k ≠ "__role" →
        alistLookup (popRole [("__role", "Role user"), ("to", "alice")]) k
          = alistLookup [("__role", "Role user"), ("to", "alice")] k :=
  c8_role_consumed ["smtp"] (fun _ => .ok [⟨"smtp", [("HOST", "x")]⟩])
    [("HOME", "h")] ["body"] [("__role", "Role user"), ("to", "alice")]
    [⟨"smtp", [("HOST", "x")]⟩] (by decide) rfl (by decide) (by decide)

/-! ### Claim C9 -/

/-- C9: `_unset_secrets` deletes each key unconditionally, so whenever
some injected key occurs in more than one record (or twice in one) or is
absent from the environment at revert time, the cleanup raises `KeyError`;
and since the cleanup runs in the `finally` block, its `KeyError` replaces
the invocation's in-flight outcome — including the callable's original
exception. -/
theorem c9_cleanup_keyerror :
    (∀ (env : Env) (ss : List Secret), (envKeys env).Nodup →
      (¬ (secretKeyNames ss).Nodup ∨ ∃ k ∈ secretKeyNames ss, k ∉ envKeys env) →
      ∃ p, _unset_secrets env ss = .error p)
    ∧ ∀ (V : Type) (secretNames : List String)
        (fetch : Val → Except WErr (List Secret))
        (func : Env → List Val → List (String × Val) → Except WErr V × Env)
        (env : Env) (args : List Val) (kwargs : List (String × Val))
        (objs : List Secret) (res : Except WErr V) (env2 : Env)
        (k : String) (envP : Env),
        secretNames.isEmpty = false →
        fetch (roleOf kwargs) = .ok objs →
        func (_set_secrets env objs) args (popRole kwargs) = (res, env2) →
        _unset_secrets env2 objs = .error (k, envP) →
        wrapper secretNames fetch func env args kwargs
          = (.error (.keyError k), envP) := by
  constructor
  · exact fun env ss h1 h2 => unset_secrets_fails env ss h1 h2
  · intro V secretNames fetch func env args kwargs objs res env2 k envP
      hne hfetch hf hunset
    rw [wrapper_fetch_ok secretNames fetch func env args kwargs objs hne hfetch,
      hf, hunset]

/-- C9 witness: reverting a record whose key is not in the environment
raises `KeyError`, and in the `finally` block that `KeyError` replaces the
callable's original `userError "orig"`. -/
theorem c9_witness :
    (∃ p, _unset_secrets [] [⟨"s", [("K", "v")]⟩] = .error p)
    ∧ @wrapper String ["s"] (fun _ => .ok [⟨"s", [("K", "v")]⟩])
        (fun _ _ _ => (.error (.userError "orig"), [])) [] [] []
      = (.error (.keyError "K"), []) :=
  ⟨c9_cleanup_keyerror.1 [] [⟨"s", [("K", "v")]⟩] (by decide) (by decide),
    c9_cleanup_keyerror.2 String ["s"] (fun _ => .ok [⟨"s", [("K", "v")]⟩])
      (fun _ _ _ => (.error (.userError "orig"), [])) [] [] []
      [⟨"s", [("K", "v")]⟩] (.error (.userError "orig")) [] "K" []
      (by decide) rfl rfl (by decide)⟩

/-! ### Claim C10 -/

/-- C10: every registration attempt — accepted or rejected — preserves the
invariant that the integrations map and the metadata map hold exactly the
same keys in the same order, and under that invariant every registered key
resolves to both a stored callable and a stored metadata record. -/
theorem c10_maps_lockstep (r : Registry) (a : Attempt)
    (h : r.integrations.map Prod.fst = r.metadata.map Prod.fst) :
    (applyAttempt r a).integrations.map Prod.fst
      = (applyAttempt r a).metadata.map Prod.fst
    ∧ ∀ k, k ∈ (applyAttempt r a).integrations.map Prod.fst →
        (alistLookup (applyAttempt r a).integrations k).isSome = true
        ∧ (alistLookup (applyAttempt r a).metadata k).isSome = true := by
  have hmain : (applyAttempt r a).integrations.map Prod.fst
      = (applyAttempt r a).metadata.map Prod.fst := by
    cases hv : validate_type_constraints a.func with
    | false =>
      rw [applyAttempt_of_error r a _
        (decorator_register_unsupported r a.description a.extra a.func hv)]
      exact h
    | true =>
      cases hdup : (r.integrations.map Prod.fst).contains (get_integration_key a.func) with
      | true =>
        rw [applyAttempt_of_error r a _
          (decorator_register_dup r a.description a.extra a.func hv hdup)]
        exact h
      | false =>
        cases hc : a.func.isCallableFn with
        | false =>
          rw [applyAttempt_of_error r a _
            (decorator_register_not_callable r a.description a.extra a.func hv hdup hc)]
          exact h
        | true =>
          rw [applyAttempt_of_ok r a hv hdup hc]
          show (r.integrations ++ [(get_integration_key a.func, a.func)]).map Prod.fst
            = (r.metadata ++ [(get_integration_key a.func,
                mkMeta a.func a.description a.extra)]).map Prod.fst
          rw [List.map_append, List.map_append, h]
          rfl
  refine ⟨hmain, fun k hk => ⟨(alistLookup_isSome _ k).mpr hk, ?_⟩⟩
  exact (alistLookup_isSome _ k).mpr (hmain ▸ hk)

/-- C10 witness: the invariant observed across one concrete accepted
attempt on the empty registry. -/
theorem c10_witness :
    (applyAttempt emptyRegistry ⟨"d", [], ⟨true, "w", none, none, [], none⟩⟩).integrations.map Prod.fst
      = (applyAttempt emptyRegistry ⟨"d", [], ⟨true, "w", none, none, [], none⟩⟩).metadata.map Prod.fst
    ∧ ∀ k, k ∈ (applyAttempt emptyRegistry ⟨"d", [], ⟨true, "w", none, none, [], none⟩⟩).integrations.map Prod.fst →
        (alistLookup (applyAttempt emptyRegistry ⟨"d", [], ⟨true, "w", none, none, [], none⟩⟩).integrations k).isSome = true
        ∧ (alistLookup (applyAttempt emptyRegistry ⟨"d", [], ⟨true, "w", none, none, [], none⟩⟩).metadata k).isSome = true :=
  c10_maps_lockstep emptyRegistry ⟨"d", [], ⟨true, "w", none, none, [], none⟩⟩ rfl
